import Mathlib

/-!
# Verification of the sockjs-gevent session core

A shallow embedding of the session layer of the sockjs-gevent repository
(`sockjs_gevent/session.py`, `sockjs_gevent/protocol.py`,
`sockjs_gevent/server.py`) together with proofs about its behaviour.

Modelling conventions:
* Wall-clock times and expiry stamps are integers (seconds); `time.time()`
  is passed in explicitly as a `now` argument wherever the source calls it.
* Transport handles (the objects stored behind the `weakref.ref` read/write
  owners) are identified by natural numbers; Python `is`-identity between
  handles becomes equality of those numbers.  Expiry of a weak reference is
  not modelled: an owner that is stored is considered alive.
* Strings stand for Python byte/unicode strings; messages are strings.
* Exceptions are modelled by explicit error results.
-/

namespace SockJS

/-- Application-level message payloads handled by a session. -/
abbrev Msg := String

/-- `Session.state`: the four values the source stores in `self.state`
(`'new'`, `'open'`, `'interrupted'`, `'closed'`).  The constructor for the
`'open'` string is called `opened`, matching the `Session.opened` property,
because `open` is a reserved word in Lean. -/
inductive SState
  | new
  | opened
  | interrupted
  | closed
deriving DecidableEq, Repr

/-- The state of a `Session` / `MemorySession` object
(`sockjs_gevent/session.py`).  The bound connection object and its
callbacks (`session_opened` / `session_closed` / `on_message`) are not
modelled: no claim observes them.  `queue` is the `gevent.queue.Queue` of
`MemorySession`, as the list of queued messages in FIFO order. -/
structure Sess where
  session_id : String
  state : SState
  ttl_interval : Int
  expires_at : Int
  reader : Option Nat
  writer : Option Nat
  queue : List Msg
deriving DecidableEq, Repr

/-- The argument accepted by `Session.set_expiry`: `None`, a number, or a
`datetime`.  A `datetime` object is represented by the epoch timestamp that
`time.mktime(expires.timetuple())` converts it to. -/
inductive ExpiresArg
  | none
  | num (n : Int)
  | datetime (epoch : Int)
deriving DecidableEq, Repr

/-- `Session.set_expiry(expires)`.  `if not expires:` is the Python falsy
test: `None` and `0` store `expires_at = 0`; a `datetime` is converted to
its epoch seconds; any remaining value below `1e9` is a delta added to
`time.time()` (passed as `now`), otherwise it is stored as-is. -/
def set_expiry (now : Int) (s : Sess) (expires : ExpiresArg) : Sess :=
  match expires with
  | .none => { s with expires_at := 0 }
  | .num n =>
    if n = 0 then { s with expires_at := 0 }
    else if n < 10 ^ 9 then { s with expires_at := n + now }
    else { s with expires_at := n }
  | .datetime t =>
    if t < 10 ^ 9 then { s with expires_at := t + now }
    else { s with expires_at := t }

/-- `Session.touch()`: bump the TTL. -/
def touch (now : Int) (s : Sess) : Sess :=
  { s with expires_at := now + s.ttl_interval }

/-- `Session.has_expired(now)`.  The source's `(now or time.time())`
fallback for a falsy `now` argument is not modelled; every caller in the
claims passes a positive wall-clock time. -/
def has_expired (s : Sess) (now : Int) : Bool :=
  if s.state = .closed ∨ s.state = .interrupted then true
  else if s.expires_at = 0 then false
  else s.expires_at ≤ now

/-- The `SessionUnavailable(code, reason)` exception. -/
structure SessionUnavailable where
  code : Nat
  reason : String
deriving DecidableEq, Repr

/-- `protocol.CONN_INTERRUPTED` -/
def CONN_INTERRUPTED : SessionUnavailable := ⟨1002, "Connection interrupted"⟩

/-- `protocol.CONN_ALREADY_OPEN` -/
def CONN_ALREADY_OPEN : SessionUnavailable := ⟨2010, "Another connection still open"⟩

/-- `protocol.CONN_CLOSED` -/
def CONN_CLOSED : SessionUnavailable := ⟨3000, "Go away!"⟩

/-- `Session._make_owner(owner, read, write, orig=None)`.  Returns the
session as left by the call together with the boolean result.  The source
checks / installs the read channel first and the write channel second,
raising `SessionUnavailable` on a conflict; the `except` handler restores
both owners to their originals and returns `False`, so the net effect of a
failed call leaves the session unchanged, which is what this translation
computes directly.  A channel owned by `orig or owner` itself is treated as
unowned (re-entry). -/
def make_owner (s : Sess) (owner : Option Nat) (read write : Bool)
    (orig : Option Nat) : Sess × Bool :=
  let origOwner : Option Nat := match orig with
    | some o => some o
    | none => owner
  let readConflict : Bool := read && (match s.reader with
    | some r => decide (some r ≠ origOwner)
    | none => false)
  let writeConflict : Bool := write && (match s.writer with
    | some w => decide (some w ≠ origOwner)
    | none => false)
  if readConflict || writeConflict then (s, false)
  else
    let s1 := if read then { s with reader := owner } else s
    let s2 := if write then { s1 with writer := owner } else s1
    (s2, true)

/-- `Session.lock(owner, read, write)`.  Returns the session as left by the
call and the `SessionUnavailable` exception raised, if any. -/
def lock (s : Sess) (owner : Nat) (read write : Bool) :
    Sess × Option SessionUnavailable :=
  if s.state = .interrupted then (s, some CONN_INTERRUPTED)
  else if s.state = .closed then (s, some CONN_CLOSED)
  else
    match make_owner s (some owner) read write Option.none with
    | (s2, true) => (s2, none)
    | (s2, false) => (s2, some CONN_ALREADY_OPEN)

/-- `Session.unlock(owner, read, write)`:
`self._make_owner(None, read, write, owner)`, result ignored. -/
def unlock (s : Sess) (owner : Nat) (read write : Bool) : Sess :=
  (make_owner s Option.none read write (some owner)).1

/-- The argument of `Session.close(reason='closed')`.  The docstring allows
the valid terminal state names (`'closed'`, `'interrupted'`). -/
inductive CloseReason
  | closed
  | interrupted
deriving DecidableEq, Repr

/-- The state value a close reason stores. -/
def CloseReason.toState : CloseReason → SState
  | .closed => .closed
  | .interrupted => .interrupted

/-- `Session.close(reason)`: unconditionally sets `self.state = reason`
(the dispatch of `conn.session_closed()` is not modelled). -/
def closeSession (s : Sess) (reason : CloseReason) : Sess :=
  { s with state := reason.toState }

/-- `Session.interrupt()`: `self.close('interrupted')`. -/
def interruptSession (s : Sess) : Sess :=
  closeSession s .interrupted

/-- `Session.open()` (named `openCall` because `open` is reserved in Lean).
Raises `RuntimeError` — second component `true` — when the state is not
`'new'`, leaving the state unchanged; otherwise sets the state to
`'open'`.  The `assert self.conn` and `conn.session_opened()` dispatch
presume a bound connection and are not modelled. -/
def openCall (s : Sess) : Sess × Bool :=
  if s.state = .new then ({ s with state := .opened }, false)
  else (s, true)

/-- The state-changing operations of claim C2: `open()`, `close(reason)`,
`interrupt()`, and the effect of `Pool.remove` / `Pool.drain` on the
removed session. -/
inductive SOp
  | opencall
  | close (reason : CloseReason)
  | interrupt
  | poolRemove
deriving DecidableEq, Repr

/-- One operation applied to a session: resulting session and whether the
call raised.  `Pool.remove` (and `Pool.drain`) guard the interrupt with
`if session.open:` — but `open` is the *bound method* `Session.open`, an
always-truthy object (the boolean property is named `opened`), so the
session is interrupted no matter what state it is in. -/
def stepState (s : Sess) : SOp → Sess × Bool
  | .opencall => openCall s
  | .close reason => (closeSession s reason, false)
  | .interrupt => (interruptSession s, false)
  | .poolRemove => (interruptSession s, false)

/-- A sequence of C2 operations applied left to right (raised errors are
swallowed by the caller; the state evolution is what matters). -/
def runOpsS (s : Sess) : List SOp → Sess
  | [] => s
  | op :: rest => runOpsS (stepState s op).1 rest

/-! ## MemorySession message queue -/

/-- `MemorySession.add_messages(*msgs)`: returns immediately when called
with no messages; otherwise puts every message at the tail of the queue
and bumps the TTL via `touch()`. -/
def add_messages (now : Int) (s : Sess) (msgs : List Msg) : Sess :=
  if msgs = [] then s
  else touch now { s with queue := s.queue ++ msgs }

/-- `MemorySession.get_messages(timeout=None)`: bumps the TTL, then drains
every immediately pending message from the queue in FIFO order.  The
blocking branch (`self.queue.get(timeout=timeout)` when nothing was
pending) is modelled as the empty drain a timed-out call returns: there is
no concurrent producer in this sequential embedding. -/
def get_messages (now : Int) (s : Sess) : List Msg × Sess :=
  (s.queue, { touch now s with queue := [] })

/-- The queue-facing operations of claim C3. -/
inductive MOp
  | add (msgs : List Msg)
  | get
deriving DecidableEq, Repr

/-- Run a sequence of `add_messages` / `get_messages` calls; returns the
final session and the concatenation of everything the `get` calls
returned, in call order. -/
def runQueue (now : Int) (s : Sess) : List MOp → Sess × List Msg
  | [] => (s, [])
  | .add msgs :: rest => runQueue now (add_messages now s msgs) rest
  | .get :: rest =>
    let drained := get_messages now s
    let tail := runQueue now drained.2 rest
    (tail.1, drained.1 ++ tail.2)

/-- All messages supplied to `add_messages` over a run, in order. -/
def addedMsgs : List MOp → List Msg
  | [] => []
  | .add msgs :: rest => msgs ++ addedMsgs rest
  | .get :: rest => addedMsgs rest

/-! ## Heartbeat task -/

/-- What one iteration of `Session.run_heartbeat` does after the sleep. -/
inductive HbTick
  | exit
  | send (reader : Nat)
deriving DecidableEq, Repr

/-- One iteration of the `Session.run_heartbeat` loop body.  The source
breaks on `not reader or not self.open` — but `self.open` is the bound
method `Session.open`, an always-truthy object (the state test would be
the `opened` property), so `not self.open` is always `False` and only a
missing reader stops the loop before `send_heartbeat` is invoked. -/
def heartbeatTick (s : Sess) : HbTick :=
  match s.reader with
  | none => .exit
  | some r =>
    let openAttrTruthy := true
    if !openAttrTruthy then .exit else .send r

/-! ## Protocol codec (`sockjs_gevent/protocol.py`)

The JSON library itself is an external collaborator of the repository
(spec §1 puts "JSON encode/decode" out of scope, specified by interface);
it is modelled here on the fragment the claims quantify over: JSON arrays
of strings, in the environment without the optional `ujson` package, i.e.
with the standard-library / `simplejson` implementation bound to the
module's `json` name.  (The module-level `dumps` wrapper that pins
`separators=(',', ':')` has no callers anywhere in the repository and is
not modelled.) -/

/-- The escaping `json.dumps` applies to one character of a string with the
default `ensure_ascii` handling of the common escapes.  `\uXXXX` escaping
of other control and non-ASCII characters is not modelled; the inputs used
in the theorems below are plain ASCII. -/
def jsonQuoteChar (c : Char) : String :=
  if c = '"' then "\\\""
  else if c = '\\' then "\\\\"
  else if c = '\n' then "\\n"
  else if c = '\r' then "\\r"
  else if c = '\t' then "\\t"
  else String.singleton c

/-- A JSON string literal for `s`. -/
def jsonQuote (s : String) : String :=
  "\"" ++ String.join (s.data.map jsonQuoteChar) ++ "\""

/-- `protocol.encode(message)`: `json.dumps(message)` — the imported json
module's `dumps` called with *default* arguments (the module-level compact
`dumps` wrapper defined at the top of `protocol.py` is not what `encode`
calls).  With the stdlib / `simplejson` defaults the separators are
`(', ', ': ')`: a space follows every item separator; there is no
whitespace after `[` or before `]`, and an empty array prints as `[]`. -/
def encode (msgs : List Msg) : String :=
  "[" ++ String.intercalate ", " (msgs.map jsonQuote) ++ "]"

/-- JSON whitespace accepted by `json.loads`. -/
def isJsonWs (c : Char) : Bool :=
  c = ' ' || c = '\t' || c = '\n' || c = '\r'

/-- Drop leading JSON whitespace. -/
def skipWs : List Char → List Char
  | [] => []
  | c :: rest => if isJsonWs c then skipWs rest else c :: rest

/-- Resolve a one-character escape sequence (`\uXXXX` is not modelled). -/
def unescapeChar (c : Char) : Option Char :=
  if c = '"' then some '"'
  else if c = '\\' then some '\\'
  else if c = '/' then some '/'
  else if c = 'b' then some '\x08'
  else if c = 'f' then some '\x0c'
  else if c = 'n' then some '\n'
  else if c = 'r' then some '\r'
  else if c = 't' then some '\t'
  else none

/-- Parse the body of a JSON string literal after the opening quote,
returning the decoded characters and the input after the closing quote.
`json.loads` in strict mode rejects raw control characters inside a
string. -/
def parseStringBody : List Char → Option (List Char × List Char)
  | [] => none
  | '"' :: rest => some ([], rest)
  | '\\' :: e :: rest => do
    let c ← unescapeChar e
    let (body, rem) ← parseStringBody rest
    some (c :: body, rem)
  | c :: rest =>
    if c.toNat < 32 then none
    else do
      let (body, rem) ← parseStringBody rest
      some (c :: body, rem)

/-- Parse a JSON string literal (opening quote included). -/
def parseJStr (cs : List Char) : Option (String × List Char) :=
  match cs with
  | '"' :: rest => (parseStringBody rest).map (fun p => (String.mk p.1, p.2))
  | _ => none

/-- Parse `(',' string)* ']'` after one array element, fuel-bounded (each
step consumes at least one character, so any fuel beyond the input length
is enough). -/
def parseElems : Nat → List Char → Option (List String × List Char)
  | 0, _ => none
  | fuel + 1, cs =>
    match skipWs cs with
    | ']' :: rest => some ([], rest)
    | ',' :: rest => do
      let (s, rem) ← parseJStr (skipWs rest)
      let (more, rem2) ← parseElems fuel rem
      some (s :: more, rem2)
    | _ => none

/-- Parse the contents of a JSON array of strings after `[`. -/
def parseArrayTail (fuel : Nat) (cs : List Char) :
    Option (List String × List Char) :=
  match skipWs cs with
  | ']' :: rest => some ([], rest)
  | cs2 => do
    let (s, rem) ← parseJStr cs2
    let (more, rem2) ← parseElems fuel rem
    some (s :: more, rem2)

/-- `json.loads(data)` on the fragment of JSON arrays of strings: leading
and trailing whitespace is accepted, anything else — including top-level
values that are not arrays of strings — is a `ValueError` (`none`). -/
def loads (data : String) : Option (List String) :=
  match skipWs data.data with
  | '[' :: rest => do
    let (v, rem) ← parseArrayTail (data.length + 1) rest
    match skipWs rem with
    | [] => some v
    | _ => none
  | _ => none

/-- How `protocol.decode` can fail: `InvalidJSON`, or the uncaught
`IndexError` that `data[0]` raises on an empty byte string. -/
inductive DecodeErr
  | invalidJSON
  | indexError
deriving DecidableEq, Repr

/-- `protocol.decode(data)`: requires the very first byte of `data` to be
`'['` (the "quick check to make sure we're going to decode a list"),
then delegates to `json.loads`, converting its `ValueError` into
`InvalidJSON`. -/
def decode (data : String) : Except DecodeErr (List Msg) :=
  match data.data with
  | [] => .error .indexError
  | c :: _ =>
    if c ≠ '[' then .error .invalidJSON
    else
      match loads data with
      | some v => .ok v
      | none => .error .invalidJSON

/-! ## Session pool (`session.Pool`)

Python dicts (`sessions`, `cycles`) are association lists with unique
keys; `cycles`, keyed on the session object in the source, is keyed here
on `session_id` (object identity coincides with id equality under the
pool's uniqueness invariant).  The `heapq` min-heap `pool` is a list kept
sorted by its `(time, session)` key; `heappush` inserts after all entries
with a key less than or equal to the new one and `heappop`/`pool[0]` take
the head. -/

/-- Dict lookup. -/
def alookup {β : Type} (k : String) : List (String × β) → Option β
  | [] => none
  | (k2, v) :: rest => if k2 = k then some v else alookup k rest

/-- Dict `pop(k, None)`: remove the binding of `k` (keys are unique). -/
def aerase {β : Type} (k : String) : List (String × β) → List (String × β)
  | [] => []
  | (k2, v) :: rest => if k2 = k then rest else (k2, v) :: aerase k rest

/-- Dict assignment `d[k] = v`: replace in place or append. -/
def aset {β : Type} (k : String) (v : β) : List (String × β) → List (String × β)
  | [] => [(k, v)]
  | (k2, v2) :: rest => if k2 = k then (k, v) :: rest else (k2, v2) :: aset k v rest

/-- `list.remove(x)` on the heap list: drop the first element equal to
`x`; a `ValueError` (no match) is swallowed by the caller, so no match
leaves the list unchanged. -/
def removeFirst (x : Int × Sess) : List (Int × Sess) → List (Int × Sess)
  | [] => []
  | e :: rest => if e = x then rest else e :: removeFirst x rest

/-- `heappush`: insert keeping the list sorted by the time key, after all
entries with a key `≤` the new one. -/
def heapInsert (x : Int × Sess) : List (Int × Sess) → List (Int × Sess)
  | [] => [x]
  | e :: rest => if x.1 < e.1 then x :: e :: rest else e :: heapInsert x rest

/-- `session.Pool` state: the id map, the cycle-stamp map and the heap. -/
structure Pool where
  sessions : List (String × Sess)
  cycles : List (String × Int)
  pool : List (Int × Sess)
  stopping : Bool
deriving DecidableEq, Repr

/-- A value passed where `Pool.add` expects its `session` parameter: a
session object, or — in the miscalled `Endpoint.add_session` — the session
id string. -/
inductive PyVal
  | str (s : String)
  | sess (s : Sess)
deriving DecidableEq, Repr

/-- Exceptions surfaced by the pool / endpoint embedding. -/
inductive PyErr
  | attributeError
  | runtimeError
deriving DecidableEq, Repr

/-- `Pool.add(session, time_func=time.time)`.  `now` is the value
`time_func()` would produce.  When the `session` argument is in fact a
string, the very first attribute access `session.session_id` raises
`AttributeError` (before `time_func` is ever called). -/
def Pool.add (p : Pool) (sessionArg : PyVal) (now : Int) : Except PyErr Pool :=
  if p.stopping then .error .runtimeError
  else
    match sessionArg with
    | .str _ => .error .attributeError
    | .sess s =>
      if (alookup s.session_id p.sessions).isSome then .error .runtimeError
      else if s.state ≠ .new then .error .runtimeError
      else .ok { p with
        sessions := aset s.session_id s p.sessions,
        cycles := aset s.session_id now p.cycles,
        pool := heapInsert (now, s) p.pool }

/-- `Pool.remove(session_id)`: pop the session from the id map (returning
`False` when absent), pop its cycle stamp, and — only when that stamp is
truthy — remove the `(stamp, session)` entry from the heap, swallowing the
`ValueError` of a missing entry.  The closing `if session.open:` interrupt
mutates only the removed session object, which the pool no longer
references, so it does not appear in the pool state. -/
def Pool.remove (p : Pool) (session_id : String) : Pool × Bool :=
  match alookup session_id p.sessions with
  | none => (p, false)
  | some s =>
    let sessions2 := aerase session_id p.sessions
    let ct := alookup s.session_id p.cycles
    let cycles2 := aerase s.session_id p.cycles
    let pool2 := match ct with
      | some t => if t ≠ 0 then removeFirst (t, s) p.pool else p.pool
      | none => p.pool
    ({ p with sessions := sessions2, cycles := cycles2, pool := pool2 }, true)

/-- The loop of `Pool.gc`, fuel-bounded.  `none` stands for a behaviour
outside the model: the `KeyError` of `self.cycles[session]` on a session
missing from `cycles`, or fuel exhaustion — neither occurs for the
well-formed pools (`WFPool`) the theorems quantify over. -/
def gcLoop (now : Int) : Nat → Pool → Option Pool
  | 0, _ => none
  | fuel + 1, p =>
    match p.pool with
    | [] => some p
    | (_, s) :: rest =>
      match alookup s.session_id p.cycles with
      | none => none
      | some cycle =>
        if now ≤ cycle then some p
        else
          if has_expired s now then
            gcLoop now fuel (Pool.remove { p with pool := rest } s.session_id).1
          else
            gcLoop now fuel { p with
              cycles := aset s.session_id now p.cycles,
              pool := heapInsert (now, s) rest }

/-- `Pool.gc(time_func=time.time)` at wall time `now`. -/
def Pool.gc (now : Int) (p : Pool) : Option Pool :=
  if p.pool = [] then some p
  else gcLoop now (p.pool.length + 1) p

/-! ## Endpoint session resolution (`server.Endpoint`) -/

/-- The transport-class attributes `get_session_for_transport` consults. -/
structure TransportCls where
  socket : Bool
  readable : Bool
  writable : Bool
deriving DecidableEq, Repr

/-- `Endpoint.make_session(session_id)` =
`MemorySession(session_id)`: state `'new'`, `ttl_interval` the default 5,
`expires_at = 5 + time.time()` via `set_expiry(5)`, empty queue, no
owners. -/
def make_session (now : Int) (session_id : String) : Sess :=
  { session_id := session_id, state := .new, ttl_interval := 5,
    expires_at := 5 + now, reader := none, writer := none, queue := [] }

/-- `Endpoint.add_session(session_id, session)`:
`self.session_pool.add(session_id, session)`.  `Pool.add`'s positional
parameters are `(session, time_func)`, so the id string lands in `session`
and the session object in `time_func`; the latter is never invoked because
the `AttributeError` fires first, so its slot is passed a dummy time. -/
def add_session (pool : Pool) (session_id : String) (_sess : Sess) :
    Except PyErr Pool :=
  Pool.add pool (PyVal.str session_id) 0

/-- `Endpoint.get_session_for_transport(session_id, transport)` on a
started endpoint, whose state is its session pool.  Returns the resulting
(optional session, pool) pair, or the exception raised. -/
def get_session_for_transport (now : Int) (pool : Pool) (session_id : String)
    (transport : TransportCls) : Except PyErr (Option Sess × Pool) :=
  if transport.socket then .ok (some (make_session now session_id), pool)
  else
    match alookup session_id pool.sessions with
    | some s => .ok (some s, pool)
    | none =>
      if transport.writable then .ok (none, pool)
      else
        match add_session pool session_id (make_session now session_id) with
        | .error e => .error e
        | .ok p2 => .ok (some (make_session now session_id), p2)

/-! ## Characterisation of one `Pool.gc` pass

These definitions restate, from the spec's description of the GC
algorithm, what a single pass at time `now` produces; the C5 theorem
proves the embedded `Pool.gc` equal to them on well-formed pools. -/

/-- Heap entries whose key is below the collection time. -/
def stampLt (now : Int) (e : Int × Sess) : Bool :=
  decide (e.1 < now)

/-- The prefix of the heap the pass scans: every entry before the first
one whose recorded stamp reaches `now`. -/
def gcScan (now : Int) (p : Pool) : List (Int × Sess) :=
  p.pool.takeWhile (stampLt now)

/-- The part of the heap the pass never pops. -/
def gcRest (now : Int) (p : Pool) : List (Int × Sess) :=
  p.pool.dropWhile (stampLt now)

/-- Scanned entries whose session has expired at `now`. -/
def gcDead (now : Int) (p : Pool) : List (Int × Sess) :=
  (gcScan now p).filter (fun e => has_expired e.2 now)

/-- Scanned entries whose session is still alive at `now`. -/
def gcKeep (now : Int) (p : Pool) : List (Int × Sess) :=
  (gcScan now p).filter (fun e => !has_expired e.2 now)

/-- Ids of the sessions a pass removes. -/
def gcDeadSids (now : Int) (p : Pool) : List String :=
  (gcDead now p).map (fun e => e.2.session_id)

/-- Ids of the sessions a pass restamps. -/
def gcKeepSids (now : Int) (p : Pool) : List String :=
  (gcKeep now p).map (fun e => e.2.session_id)

/-- The heap after the pass: the unscanned entries already stamped `now`,
then the surviving scanned entries re-pushed with stamp `now` in scan
order, then the unscanned entries with later stamps. -/
def gcFinalHeap (now : Int) (p : Pool) : List (Int × Sess) :=
  (gcRest now p).takeWhile (fun e => decide (e.1 = now))
    ++ (gcKeep now p).map (fun e => (now, e.2))
    ++ (gcRest now p).dropWhile (fun e => decide (e.1 = now))

/-- Well-formedness of a pool, maintained by `Pool.add` / `Pool.remove` /
`Pool.gc`: the heap is sorted by key; heap sessions have pairwise distinct
ids; every heap entry's session is registered in `cycles` with its heap
key as recorded stamp and in `sessions` under its id; and the two dicts
have unique keys. -/
def WFPool (p : Pool) : Prop :=
  p.pool.Pairwise (fun a b => a.1 ≤ b.1)
  ∧ (p.pool.map (fun e => e.2.session_id)).Nodup
  ∧ (∀ e ∈ p.pool, alookup e.2.session_id p.cycles = some e.1)
  ∧ (∀ e ∈ p.pool, alookup e.2.session_id p.sessions = some e.2)
  ∧ (p.sessions.map Prod.fst).Nodup
  ∧ (p.cycles.map Prod.fst).Nodup

/-- The characterisation of `gcLoop` at a given fuel, proved for every
sufficient fuel by `gcLoop_char`: the loop succeeds; the resulting heap is
`gcFinalHeap`; a session id resolves in the resulting maps to nothing when
it was scanned and expired, to the restamp `now` (in `cycles`) when it was
scanned and alive, and to its old binding otherwise. -/
def GcStatement (now : Int) (fuel : Nat) : Prop :=
  ∀ p : Pool, WFPool p →
    (p.pool.filter (stampLt now)).length < fuel →
    ∃ q, gcLoop now fuel p = some q
      ∧ q.pool = gcFinalHeap now p
      ∧ (∀ sid, alookup sid q.sessions =
          if sid ∈ gcDeadSids now p then none else alookup sid p.sessions)
      ∧ (∀ sid, alookup sid q.cycles =
          if sid ∈ gcDeadSids now p then none
          else if sid ∈ gcKeepSids now p then some now
          else alookup sid p.cycles)

/-! ## Concrete instances used by the witnesses and counterexamples -/

/-- A fresh session. -/
def exNew : Sess := ⟨"new1", .new, 5, 0, none, none, []⟩

/-- An open session. -/
def exOpened : Sess := ⟨"open1", .opened, 5, 0, none, none, []⟩

/-- A closed session. -/
def exClosed : Sess := ⟨"closed1", .closed, 5, 0, none, none, []⟩

/-- An interrupted session. -/
def exInterrupted : Sess := ⟨"int1", .interrupted, 5, 0, none, none, []⟩

/-- A closed session whose read channel is still owned by handle 7. -/
def exClosedReader : Sess := ⟨"hb1", .closed, 5, 0, some 7, none, []⟩

/-- A closed session with no read owner. -/
def exClosedNoReader : Sess := ⟨"hb2", .closed, 5, 0, none, none, []⟩

/-- A started endpoint's empty pool. -/
def emptyPool : Pool := ⟨[], [], [], false⟩

/-- A session already registered under id `"xyz"`. -/
def pooledSess : Sess := ⟨"xyz", .opened, 5, 0, none, none, []⟩

/-- A pool holding `pooledSess`. -/
def pooledPool : Pool :=
  ⟨[("xyz", pooledSess)], [("xyz", 50)], [(50, pooledSess)], false⟩

/-- An expired pooled session (closed, stamp 1). -/
def gcSessA : Sess := ⟨"a", .closed, 5, 0, none, none, []⟩

/-- A live pooled session (open, never expires by time, stamp 5). -/
def gcSessB : Sess := ⟨"b", .opened, 5, 0, none, none, []⟩

/-- A two-session pool for exercising `Pool.gc`. -/
def gcExampleP : Pool :=
  ⟨[("a", gcSessA), ("b", gcSessB)], [("a", 1), ("b", 5)],
    [(1, gcSessA), (5, gcSessB)], false⟩

/-- The pool `Pool.gc 10 gcExampleP` produces. -/
def gcExampleQ : Pool :=
  ⟨[("b", gcSessB)], [("b", 10)], [(10, gcSessB)], false⟩

/-! # Theorems -/

/-- C10: `add_messages` called with zero messages returns before touching
anything: the message queue and `expires_at` (and the rest of the session)
are exactly as before. -/
theorem c10_add_messages_empty_noop (now : Int) (s : Sess) :
    add_messages now s [] = s := by
  simp [add_messages]

/-- C3: over any sequence of `add_messages` / `get_messages` calls, the
messages returned by the `get` calls followed by the messages still queued
are exactly the initial queue followed by every added message, in order —
FIFO across call boundaries, nothing dropped, nothing duplicated, and
messages added while nothing reads remain queued. -/
theorem c3_memory_queue_fifo (now : Int) (s : Sess) (ops : List MOp) :
    (runQueue now s ops).2 ++ (runQueue now s ops).1.queue
      = s.queue ++ addedMsgs ops := by
  induction ops generalizing s with
  | nil => simp [runQueue, addedMsgs]
  | cons op rest ih =>
    cases op with
    | add msgs =>
      by_cases h : msgs = []
      · simp [runQueue, addedMsgs, add_messages, h, ih]
      · have := ih (add_messages now s msgs)
        simp only [runQueue, addedMsgs]
        rw [this]
        simp [add_messages, h, touch]
    | get =>
      have := ih { touch now s with queue := [] }
      simp only [runQueue, get_messages, addedMsgs]
      simp only [List.append_assoc, this]
      simp [touch]

/-- C7: the heartbeat loop body does *not* exit when the session has left
the `'open'` state: with a read owner present on a closed session it still
invokes `send_heartbeat` (the `not self.open` test is over the bound
method, which is always truthy); only a missing read owner makes it
exit. -/
theorem c7_heartbeat_ignores_state :
    heartbeatTick exClosedReader = HbTick.send 7
      ∧ exClosedReader.state = SState.closed
      ∧ heartbeatTick exClosedNoReader = HbTick.exit := by
  refine ⟨rfl, rfl, rfl⟩

/-- C6: the round trip fails on the canonical compact encoding
`["a","b"]`: `decode` parses it, but `encode` — `json.dumps(message)`
with the library's default separators `(', ', ': ')` — re-encodes it as
`["a", "b"]`, with a space after the comma, so the result is not the
compact input and `encode`'s output is not space-free.  Empty and
one-element arrays, where no item separator is emitted, do still
round-trip. -/
theorem c6_roundtrip_not_compact :
    decode "[\"a\",\"b\"]" = Except.ok ["a", "b"]
      ∧ encode ["a", "b"] = "[\"a\", \"b\"]"
      ∧ encode ["a", "b"] ≠ "[\"a\",\"b\"]"
      ∧ decode "[\"a\"]" = Except.ok ["a"]
      ∧ encode ["a"] = "[\"a\"]"
      ∧ decode "[]" = Except.ok []
      ∧ encode [] = "[]" := by
  refine ⟨rfl, rfl, by decide, rfl, rfl, rfl, rfl⟩

/-- C4: the session-resolution matrix of `get_session_for_transport`.
The socket, pooled and writable-only rows behave as specified, but the
readable-only row with no pooled session — the row that must create and
pool the session — raises `AttributeError` instead: `Endpoint.add_session`
calls `Pool.add(session_id, session)` while `Pool.add`'s first parameter
is the session itself, so the id string's `.session_id` is accessed. -/
theorem c4_transport_matrix :
    get_session_for_transport 100 emptyPool "xyz" ⟨true, true, true⟩
        = Except.ok (some (make_session 100 "xyz"), emptyPool)
      ∧ get_session_for_transport 100 pooledPool "xyz" ⟨false, true, false⟩
        = Except.ok (some pooledSess, pooledPool)
      ∧ get_session_for_transport 100 pooledPool "xyz" ⟨false, false, true⟩
        = Except.ok (some pooledSess, pooledPool)
      ∧ get_session_for_transport 100 emptyPool "xyz" ⟨false, false, true⟩
        = Except.ok (none, emptyPool)
      ∧ get_session_for_transport 100 emptyPool "xyz" ⟨false, true, false⟩
        = Except.error PyErr.attributeError := by
  refine ⟨rfl, rfl, rfl, rfl, rfl⟩

/-- Helper: no C2 operation can bring a session back to `'new'`. -/
theorem stepState_not_new (s : Sess) (op : SOp) (h : s.state ≠ SState.new) :
    (stepState s op).1.state ≠ SState.new := by
  cases op with
  | opencall => simp [stepState, openCall, if_neg h]; exact h
  | close reason =>
    cases reason <;> simp [stepState, closeSession, CloseReason.toState]
  | interrupt => simp [stepState, interruptSession, closeSession, CloseReason.toState]
  | poolRemove => simp [stepState, interruptSession, closeSession, CloseReason.toState]

/-- Helper: over a whole run, a session that has left `'new'` never
returns to it. -/
theorem runOpsS_not_new (s : Sess) (ops : List SOp) (h : s.state ≠ SState.new) :
    (runOpsS s ops).state ≠ SState.new := by
  induction ops generalizing s with
  | nil => exact h
  | cons op rest ih => exact ih _ (stepState_not_new s op h)

/-- C2 (amended): under `open()`, `close(reason)`, `interrupt()` and the
session-side effect of `Pool.remove`/`drain`, the state remains in
{new, open, interrupted, closed} (the type `SState`); `open()` raises
exactly in the non-`new` states and leaves the state unchanged there; a
session that has left `'new'` never returns to it, and `'open'` is only
ever entered from `'new'` via `open()`; close calls are accepted in every
state — but they simply overwrite the state, and `Pool.remove` interrupts
the session regardless of its state, so `'closed'` and `'interrupted'`
are not sticky and can flip into one another. -/
theorem c2_state_machine (s : Sess) (op : SOp) :
    ((stepState s op).2 = true ↔ op = SOp.opencall ∧ s.state ≠ SState.new)
  ∧ ((stepState s op).2 = true → (stepState s op).1 = s)
  ∧ (s.state ≠ SState.new → (stepState s op).1.state ≠ SState.new)
  ∧ ((stepState s op).1.state = SState.opened →
      s.state = SState.opened ∨ (s.state = SState.new ∧ op = SOp.opencall))
  ∧ (∀ reason, (stepState s (SOp.close reason)).1.state = reason.toState)
  ∧ ((stepState s SOp.interrupt).1.state = SState.interrupted)
  ∧ ((stepState s SOp.poolRemove).1.state = SState.interrupted)
  ∧ (∀ ops : List SOp, s.state ≠ SState.new →
      (runOpsS s ops).state ≠ SState.new) := by
  refine ⟨?_, ?_, stepState_not_new s op, ?_, ?_, ?_, ?_,
    fun ops h => runOpsS_not_new s ops h⟩
  · cases op with
    | opencall =>
      by_cases h : s.state = SState.new <;>
        simp [stepState, openCall, h]
    | close reason => simp [stepState]
    | interrupt => simp [stepState]
    | poolRemove => simp [stepState]
  · cases op with
    | opencall =>
      by_cases h : s.state = SState.new <;>
        simp [stepState, openCall, h]
    | close reason => simp [stepState]
    | interrupt => simp [stepState]
    | poolRemove => simp [stepState]
  · cases op with
    | opencall =>
      by_cases h : s.state = SState.new <;>
        simp [stepState, openCall, h]
    | close reason =>
      cases reason <;>
        simp [stepState, closeSession, CloseReason.toState]
    | interrupt =>
      simp [stepState, interruptSession, closeSession, CloseReason.toState]
    | poolRemove =>
      simp [stepState, interruptSession, closeSession, CloseReason.toState]
  · intro reason; rfl
  · rfl
  · rfl

/-- C2 counterexample: the claim "once the state is `'closed'` it never
changes again" is false — `interrupt()` (also reached via `Pool.remove`)
on a closed session flips its state to `'interrupted'`. -/
theorem c2_closed_not_sticky :
    exClosed.state = SState.closed
      ∧ (stepState exClosed SOp.interrupt).1.state = SState.interrupted
      ∧ SState.interrupted ≠ SState.closed := by
  refine ⟨rfl, rfl, by decide⟩

/-- C2 witness: the amended theorem applied to a closed session and an
`interrupt()` call. -/
theorem c2_state_machine_witness :
    exClosed.state ≠ SState.new
      ∧ (stepState exClosed SOp.interrupt).1.state ≠ SState.new := by
  have h := (c2_state_machine exClosed SOp.interrupt).2.2.1
  exact ⟨by decide, h (by decide)⟩

/-- C9 (amended): `set_expiry` by magnitude — `None`/`0` store 0 (and
`has_expired` is then false for every time while the session is not
terminal); a number below `1e9` is a delta added to the current time; a
number of at least `1e9` is absolute; a `datetime` is first converted to
its epoch timestamp and then follows the same magnitude rule (so any
date from September 2001 on is absolute). -/
theorem c9_set_expiry_magnitude (now : Int) (s : Sess) :
    (set_expiry now s ExpiresArg.none = { s with expires_at := 0 })
  ∧ (set_expiry now s (ExpiresArg.num 0) = { s with expires_at := 0 })
  ∧ (∀ n : Int, n ≠ 0 → n < 10 ^ 9 →
      set_expiry now s (ExpiresArg.num n) = { s with expires_at := n + now })
  ∧ (∀ n : Int, 10 ^ 9 ≤ n →
      set_expiry now s (ExpiresArg.num n) = { s with expires_at := n })
  ∧ (∀ e : Int, e < 10 ^ 9 →
      set_expiry now s (ExpiresArg.datetime e) = { s with expires_at := e + now })
  ∧ (∀ e : Int, 10 ^ 9 ≤ e →
      set_expiry now s (ExpiresArg.datetime e) = { s with expires_at := e })
  ∧ (s.state ≠ SState.closed → s.state ≠ SState.interrupted →
      ∀ t : Int, has_expired (set_expiry now s ExpiresArg.none) t = false)
  ∧ (s.state ≠ SState.closed → s.state ≠ SState.interrupted →
      ∀ t : Int, has_expired (set_expiry now s (ExpiresArg.num 0)) t = false) := by
  refine ⟨rfl, by simp [set_expiry], ?_, ?_, ?_, ?_, ?_, ?_⟩
  · intro n h1 h2
    simp only [set_expiry]
    rw [if_neg h1, if_pos h2]
  · intro n h
    have h0 : ¬n = 0 := by intro e; rw [e] at h; norm_num at h
    have h1 : ¬n < 10 ^ 9 := not_lt.mpr h
    simp only [set_expiry]
    rw [if_neg h0, if_neg h1]
  · intro e h
    simp only [set_expiry]
    rw [if_pos h]
  · intro e h
    have h1 : ¬e < 10 ^ 9 := not_lt.mpr h
    simp only [set_expiry]
    rw [if_neg h1]
  · intro h1 h2 t
    simp [set_expiry, has_expired, h1, h2]
  · intro h1 h2 t
    simp [set_expiry, has_expired, h1, h2]

/-- C9 counterexample: a `datetime` is *not* always absolute — one whose
epoch timestamp is below `1e9` (here 86400, i.e. early January 1970) is
treated as a delta and added to the current time. -/
theorem c9_datetime_as_delta :
    (set_expiry 1700000000 exNew (ExpiresArg.datetime 86400)).expires_at
        = 1700086400
      ∧ (1700086400 : Int) ≠ 86400 := by
  constructor
  · norm_num [set_expiry, exNew]
  · norm_num

/-- C9 witness: the amended theorem applied at a delta of 3 seconds from
time 100. -/
theorem c9_set_expiry_witness :
    set_expiry 100 exNew (ExpiresArg.num 3) = { exNew with expires_at := 3 + 100 }
      ∧ (3 : Int) ≠ 0 ∧ (3 : Int) < 10 ^ 9 := by
  refine ⟨(c9_set_expiry_magnitude 100 exNew).2.2.1 3 (by norm_num) (by norm_num),
    by norm_num, by norm_num⟩

/-- C8 (amended): for every nonempty input, `decode` fails with
`InvalidJSON` exactly when the *first byte* (not the first non-whitespace
byte) is not `'['` or the payload does not parse as JSON, and succeeds
with the parsed sequence otherwise (an empty input raises `IndexError`
from `data[0]` instead). -/
theorem c8_decode_first_byte (data : String) (h : data ≠ "") :
    ((decode data = Except.error DecodeErr.invalidJSON) ↔
      (data.data.head? ≠ some '[' ∨ loads data = none))
  ∧ (∀ v, decode data = Except.ok v ↔
      (data.data.head? = some '[' ∧ loads data = some v)) := by
  obtain ⟨l⟩ := data
  cases l with
  | nil => exact absurd rfl h
  | cons c rest =>
    by_cases hc : c = '['
    · subst hc
      cases hl : loads (String.mk ('[' :: rest)) with
      | none => exact ⟨by simp [decode, hl], fun v => by simp [decode, hl]⟩
      | some v0 => exact ⟨by simp [decode, hl], fun v => by simp [decode, hl]⟩
    · exact ⟨by simp [decode, hc], fun v => by simp [decode, hc]⟩

/-- C8 counterexample: on `" []"` the first non-whitespace byte is `'['`
and the payload parses as JSON, yet `decode` rejects it, because the check
is on the very first byte. -/
theorem c8_whitespace_rejected :
    decode " []" = Except.error DecodeErr.invalidJSON
      ∧ loads " []" = some [] := by
  exact ⟨rfl, rfl⟩

/-- C8 witness: the amended theorem applied to the input `"[]"`. -/
theorem c8_decode_witness :
    decode "[]" = Except.ok ([] : List Msg) ∧ ("[]" : String) ≠ "" := by
  refine ⟨((c8_decode_first_byte "[]" (by decide)).2 []).mpr ⟨rfl, rfl⟩, by decide⟩

/-- C1: the `lock` protocol.  On an interrupted session it raises
`SessionUnavailable(1002, "Connection interrupted")`; on a closed one
`SessionUnavailable(3000, "Go away!")`; otherwise it raises
`SessionUnavailable(2010, "Another connection still open")` exactly when a
requested channel is owned by a different handle; when every requested
channel is free or already owned by the requester (re-entry) it succeeds
and installs the requester on the requested channels; and whenever it
raises, both owners (indeed the whole session) are unchanged. -/
theorem c1_lock_spec (s : Sess) (t : Nat) (r w : Bool) :
    (s.state = SState.interrupted → lock s t r w = (s, some CONN_INTERRUPTED))
  ∧ (s.state = SState.closed → lock s t r w = (s, some CONN_CLOSED))
  ∧ (s.state ≠ SState.interrupted → s.state ≠ SState.closed →
      ((lock s t r w).2 = some CONN_ALREADY_OPEN ↔
        (r = true ∧ s.reader ≠ none ∧ s.reader ≠ some t)
          ∨ (w = true ∧ s.writer ≠ none ∧ s.writer ≠ some t)))
  ∧ (s.state ≠ SState.interrupted → s.state ≠ SState.closed →
      (r = true → s.reader = none ∨ s.reader = some t) →
      (w = true → s.writer = none ∨ s.writer = some t) →
      lock s t r w = ({ s with
          reader := (if r then some t else s.reader),
          writer := (if w then some t else s.writer) }, none))
  ∧ ((lock s t r w).2 ≠ none →
      (lock s t r w).1.reader = s.reader ∧ (lock s t r w).1.writer = s.writer) := by
  refine ⟨fun h => by simp [lock, h], fun h => by simp [lock, h], ?_, ?_, ?_⟩
  · intro h1 h2
    obtain ⟨sid, st, ttl, exp, rd, wr, q⟩ := s
    simp only [Sess.state] at h1 h2
    simp only [lock, make_owner, if_neg h1, if_neg h2]
    cases r <;> cases w <;>
      rcases rd with _ | a <;> rcases wr with _ | b <;>
        simp_all [CONN_ALREADY_OPEN] <;>
        (try by_cases ha : a = t) <;> (try by_cases hb : b = t) <;>
          simp_all
  · intro h1 h2 hr hw
    obtain ⟨sid, st, ttl, exp, rd, wr, q⟩ := s
    simp only [Sess.state] at h1 h2
    simp only [Sess.reader, Sess.writer] at hr hw
    simp only [lock, make_owner, if_neg h1, if_neg h2]
    cases r <;> cases w <;>
      rcases rd with _ | a <;> rcases wr with _ | b <;>
        simp_all
  · intro hne
    obtain ⟨sid, st, ttl, exp, rd, wr, q⟩ := s
    by_cases h1 : st = SState.interrupted
    · simp [lock, h1]
    by_cases h2 : st = SState.closed
    · simp [lock, h1, h2]
    simp only [Sess.state] at h1 h2
    simp only [lock, make_owner, if_neg h1, if_neg h2] at hne ⊢
    cases r <;> cases w <;>
      rcases rd with _ | a <;> rcases wr with _ | b <;>
        simp_all <;>
        (try by_cases ha : a = t) <;> (try by_cases hb : b = t) <;>
          simp_all

/-- C1 witness: the theorem applied on an interrupted session, a free
session acquiring both channels, and a re-entrant acquisition. -/
theorem c1_lock_spec_witness :
    lock exInterrupted 1 true true = (exInterrupted, some CONN_INTERRUPTED)
      ∧ lock exOpened 1 true true
        = ({ exOpened with reader := some 1, writer := some 1 }, none) := by
  constructor
  · exact (c1_lock_spec exInterrupted 1 true true).1 rfl
  · have h := (c1_lock_spec exOpened 1 true true).2.2.2.1 (by decide) (by decide)
      (fun _ => Or.inl rfl) (fun _ => Or.inl rfl)
    simpa using h

/-! ### Association-list and heap-list lemmas for the GC proof -/

theorem alookup_aset_self {β : Type} (k : String) (v : β) (l : List (String × β)) :
    alookup k (aset k v l) = some v := by
  induction l with
  | nil => simp [aset, alookup]
  | cons e rest ih =>
    by_cases h : e.1 = k
    · simp [aset, h, alookup]
    · simpa [aset, h, alookup] using ih

theorem alookup_aset_ne {β : Type} {k k2 : String} (v : β) (l : List (String × β))
    (h : k ≠ k2) : alookup k (aset k2 v l) = alookup k l := by
  have hne : ¬k2 = k := fun he => h he.symm
  induction l with
  | nil => simp [aset, alookup, hne]
  | cons e rest ih =>
    obtain ⟨ek, ev⟩ := e
    by_cases h2 : ek = k2
    · subst h2
      simp [aset, alookup, hne]
    · by_cases h3 : ek = k <;> simp [aset, alookup, h, h2, h3, ih]

theorem alookup_aerase_ne {β : Type} {k k2 : String} (l : List (String × β))
    (h : k ≠ k2) : alookup k (aerase k2 l) = alookup k l := by
  induction l with
  | nil => simp [aerase]
  | cons e rest ih =>
    obtain ⟨ek, ev⟩ := e
    by_cases h2 : ek = k2
    · subst h2
      have h3 : ¬ek = k := fun he => h he.symm
      simp [aerase, alookup, h3]
    · by_cases h3 : ek = k <;> simp [aerase, alookup, h, h2, h3, ih]

theorem alookup_eq_none_of_not_mem {β : Type} {k : String} {l : List (String × β)}
    (h : k ∉ l.map Prod.fst) : alookup k l = none := by
  induction l with
  | nil => rfl
  | cons e rest ih =>
    obtain ⟨ek, ev⟩ := e
    simp only [List.map_cons, List.mem_cons] at h
    push_neg at h
    have h1 : ¬ek = k := fun he => h.1 he.symm
    simp [alookup, h1, ih h.2]

theorem aerase_sublist {β : Type} (k : String) (l : List (String × β)) :
    List.Sublist (aerase k l) l := by
  induction l with
  | nil => simp [aerase]
  | cons e rest ih =>
    obtain ⟨ek, ev⟩ := e
    by_cases h : ek = k
    · rw [aerase, if_pos h]
      exact List.sublist_cons_of_sublist (ek, ev) (List.Sublist.refl rest)
    · simpa [aerase, h] using ih.cons₂ (ek, ev)

theorem alookup_aerase_self {β : Type} {k : String} {l : List (String × β)}
    (hnd : (l.map Prod.fst).Nodup) : alookup k (aerase k l) = none := by
  induction l with
  | nil => rfl
  | cons e rest ih =>
    simp only [List.map_cons, List.nodup_cons] at hnd
    by_cases h : e.1 = k
    · rw [aerase, if_pos h]
      exact alookup_eq_none_of_not_mem (h ▸ hnd.1)
    · rw [aerase, if_neg h, alookup, if_neg h]
      exact ih hnd.2

theorem aerase_keys_nodup {β : Type} {k : String} {l : List (String × β)}
    (hnd : (l.map Prod.fst).Nodup) : ((aerase k l).map Prod.fst).Nodup :=
  hnd.sublist ((aerase_sublist k l).map Prod.fst)

theorem mem_aset_keys {β : Type} {k3 k : String} {v : β} {l : List (String × β)} :
    k3 ∈ (aset k v l).map Prod.fst ↔ k3 = k ∨ k3 ∈ l.map Prod.fst := by
  induction l with
  | nil => simp [aset]
  | cons e rest ih =>
    obtain ⟨ek, ev⟩ := e
    by_cases h : ek = k
    · subst h
      simp [aset]
    · simp [aset, h, ih]
      tauto

theorem aset_keys_nodup {β : Type} {k : String} {v : β} {l : List (String × β)}
    (hnd : (l.map Prod.fst).Nodup) : ((aset k v l).map Prod.fst).Nodup := by
  induction l with
  | nil => simp [aset]
  | cons e rest ih =>
    obtain ⟨ek, ev⟩ := e
    simp only [List.map_cons, List.nodup_cons] at hnd
    by_cases h : ek = k
    · subst h
      rw [aset, if_pos rfl]
      simp only [List.map_cons, List.nodup_cons]
      exact hnd
    · simp only [aset, if_neg h, List.map_cons, List.nodup_cons]
      refine ⟨fun hm => ?_, ih hnd.2⟩
      rcases mem_aset_keys.mp hm with h2 | h2
      · exact h h2
      · exact hnd.1 h2

theorem removeFirst_of_forall_ne {x : Int × Sess} {l : List (Int × Sess)}
    (h : ∀ e ∈ l, e ≠ x) : removeFirst x l = l := by
  induction l with
  | nil => rfl
  | cons e rest ih =>
    rw [removeFirst, if_neg (h e (List.mem_cons_self e rest))]
    rw [ih fun e2 he2 => h e2 (List.mem_cons_of_mem e he2)]

theorem heapInsert_perm (x : Int × Sess) (l : List (Int × Sess)) :
    List.Perm (heapInsert x l) (x :: l) := by
  induction l with
  | nil => exact List.Perm.refl _
  | cons e rest ih =>
    by_cases h : x.1 < e.1
    · rw [heapInsert, if_pos h]
    · rw [heapInsert, if_neg h]
      exact (ih.cons e).trans (List.Perm.swap x e rest)

theorem heapInsert_pairwise {x : Int × Sess} {l : List (Int × Sess)}
    (h : l.Pairwise (fun a b => a.1 ≤ b.1)) :
    (heapInsert x l).Pairwise (fun a b => a.1 ≤ b.1) := by
  induction l with
  | nil => simp [heapInsert]
  | cons e rest ih =>
    rw [List.pairwise_cons] at h
    by_cases hx : x.1 < e.1
    · rw [heapInsert, if_pos hx, List.pairwise_cons]
      refine ⟨fun b hb => ?_, List.pairwise_cons.mpr h⟩
      rcases List.mem_cons.mp hb with h2 | h2
      · exact le_of_lt (h2 ▸ hx)
      · exact le_of_lt (lt_of_lt_of_le hx (h.1 b h2))
    · rw [heapInsert, if_neg hx, List.pairwise_cons]
      refine ⟨fun b hb => ?_, ih h.2⟩
      rcases List.mem_cons.mp ((heapInsert_perm x rest).mem_iff.mp hb) with h2 | h2
      · exact h2 ▸ not_lt.mp hx
      · exact h.1 b h2

theorem heapInsert_eq_take_drop (x : Int × Sess) (l : List (Int × Sess)) :
    heapInsert x l
      = l.takeWhile (fun e => !decide (x.1 < e.1))
        ++ x :: l.dropWhile (fun e => !decide (x.1 < e.1)) := by
  induction l with
  | nil => rfl
  | cons e rest ih =>
    by_cases h : x.1 < e.1
    · simp [heapInsert, h, List.takeWhile_cons, List.dropWhile_cons]
    · simp [heapInsert, h, List.takeWhile_cons, List.dropWhile_cons, ih]

theorem mem_takeWhile_pred {α : Type} {p : α → Bool} {a : α} :
    ∀ {l : List α}, a ∈ l.takeWhile p → p a = true := by
  intro l
  induction l with
  | nil => simp
  | cons e rest ih =>
    rw [List.takeWhile_cons]
    by_cases h : p e = true
    · rw [if_pos h]
      intro hm
      rcases List.mem_cons.mp hm with h2 | h2
      · exact h2 ▸ h
      · exact ih h2
    · rw [if_neg h]
      simp

theorem mem_of_mem_takeWhile {α : Type} {p : α → Bool} {a : α} :
    ∀ {l : List α}, a ∈ l.takeWhile p → a ∈ l := by
  intro l
  induction l with
  | nil => simp
  | cons e rest ih =>
    rw [List.takeWhile_cons]
    by_cases h : p e = true
    · rw [if_pos h]
      intro hm
      rcases List.mem_cons.mp hm with h2 | h2
      · exact h2 ▸ List.mem_cons_self e rest
      · exact List.mem_cons_of_mem e (ih h2)
    · rw [if_neg h]
      simp

theorem mem_of_mem_dropWhile {α : Type} {p : α → Bool} {a : α} :
    ∀ {l : List α}, a ∈ l.dropWhile p → a ∈ l := by
  intro l
  induction l with
  | nil => simp
  | cons e rest ih =>
    rw [List.dropWhile_cons]
    by_cases h : p e = true
    · rw [if_pos h]
      exact fun hm => List.mem_cons_of_mem e (ih hm)
    · rw [if_neg h]
      exact id

theorem dropWhile_head_false {α : Type} {p : α → Bool} {b : α} {t : List α} :
    ∀ {l : List α}, l.dropWhile p = b :: t → p b = false := by
  intro l
  induction l with
  | nil => simp
  | cons e rest ih =>
    rw [List.dropWhile_cons]
    by_cases h : p e = true
    · rw [if_pos h]
      exact ih
    · rw [if_neg h]
      intro he
      rw [← (List.cons.injEq ..).mp he |>.1]
      exact Bool.not_eq_true _ ▸ h

theorem takeWhile_append_of_all {α : Type} {p : α → Bool} {l1 l2 : List α}
    (h : ∀ a ∈ l1, p a = true) :
    (l1 ++ l2).takeWhile p = l1 ++ l2.takeWhile p := by
  induction l1 with
  | nil => simp
  | cons e rest ih =>
    rw [List.cons_append, List.takeWhile_cons,
      if_pos (h e (List.mem_cons_self e rest)), List.cons_append,
      ih fun a ha => h a (List.mem_cons_of_mem e ha)]

theorem dropWhile_append_of_all {α : Type} {p : α → Bool} {l1 l2 : List α}
    (h : ∀ a ∈ l1, p a = true) :
    (l1 ++ l2).dropWhile p = l2.dropWhile p := by
  induction l1 with
  | nil => simp
  | cons e rest ih =>
    rw [List.cons_append, List.dropWhile_cons,
      if_pos (h e (List.mem_cons_self e rest)),
      ih fun a ha => h a (List.mem_cons_of_mem e ha)]

theorem sorted_dropWhile_ge {now : Int} :
    ∀ {l : List (Int × Sess)}, l.Pairwise (fun a b => a.1 ≤ b.1) →
      ∀ e ∈ l.dropWhile (stampLt now), now ≤ e.1 := by
  intro l
  induction l with
  | nil => simp
  | cons x t ih =>
    intro h e
    rw [List.pairwise_cons] at h
    rw [List.dropWhile_cons]
    by_cases hx : stampLt now x = true
    · rw [if_pos hx]
      exact ih h.2 e
    · rw [if_neg hx]
      have hxge : now ≤ x.1 := by
        simpa [stampLt] using hx
      intro hm
      rcases List.mem_cons.mp hm with h2 | h2
      · exact h2 ▸ hxge
      · exact le_trans hxge (h.1 e h2)

theorem scan_sids_sub {pred : Int × Sess → Bool} {now : Int}
    {l : List (Int × Sess)} {b : String}
    (h : b ∈ ((l.takeWhile (stampLt now)).filter pred).map (fun e => e.2.session_id)) :
    b ∈ l.map (fun e => e.2.session_id) := by
  rcases List.mem_map.mp h with ⟨e, he, rfl⟩
  exact List.mem_map_of_mem _ (mem_of_mem_takeWhile (List.mem_filter.mp he).1)

/-- The live-head step of the GC loop: the head is popped, restamped with
`now`, and pushed back; the rest of the pass behaves per `GcStatement`. -/
theorem gcLoop_char_keep (now : Int) (fuel : Nat) (ih : GcStatement now fuel)
    (p : Pool) {ts : Int} {s : Sess} {rest : List (Int × Sess)}
    (hp : p.pool = (ts, s) :: rest)
    (hcyc : ∀ e ∈ p.pool, alookup e.2.session_id p.cycles = some e.1)
    (hsess : ∀ e ∈ p.pool, alookup e.2.session_id p.sessions = some e.2)
    (hsk : (p.sessions.map Prod.fst).Nodup)
    (hck : (p.cycles.map Prod.fst).Nodup)
    (hcyc_head : alookup s.session_id p.cycles = some ts)
    (hsess_head : alookup s.session_id p.sessions = some s)
    (hsort_rest : rest.Pairwise (fun a b => a.1 ≤ b.1))
    (hnodup_head : s.session_id ∉ rest.map (fun e => e.2.session_id))
    (hnodup_rest : (rest.map (fun e => e.2.session_id)).Nodup)
    (hrest_ne : ∀ e ∈ rest, e.2.session_id ≠ s.session_id)
    (hge : ¬now ≤ ts)
    (_hstamp : stampLt now (ts, s) = true)
    (hscan : p.pool.takeWhile (stampLt now)
      = (ts, s) :: rest.takeWhile (stampLt now))
    (hdrop : p.pool.dropWhile (stampLt now) = rest.dropWhile (stampLt now))
    (hcount' : (rest.filter (stampLt now)).length < fuel)
    (hexp : ¬has_expired s now = true) :
    ∃ q, gcLoop now (fuel + 1) p = some q
      ∧ q.pool = gcFinalHeap now p
      ∧ (∀ sid, alookup sid q.sessions =
          if sid ∈ gcDeadSids now p then none else alookup sid p.sessions)
      ∧ (∀ sid, alookup sid q.cycles =
          if sid ∈ gcDeadSids now p then none
          else if sid ∈ gcKeepSids now p then some now
          else alookup sid p.cycles) := by
  have hexp' : has_expired s now = false := by simpa using hexp
  -- facts about the scanned prefix, the already-restamped block and the rest
  have hAlt : ∀ e ∈ rest.takeWhile (stampLt now), e.1 < now := by
    intro e he
    have := mem_takeWhile_pred he
    simpa [stampLt] using this
  have hA1 : ∀ e ∈ rest.takeWhile (stampLt now), stampLt now e = true :=
    fun e he => mem_takeWhile_pred he
  have hBge : ∀ e ∈ rest.dropWhile (stampLt now), now ≤ e.1 :=
    sorted_dropWhile_ge hsort_rest
  have hC2 : ∀ e ∈ (rest.dropWhile (stampLt now)).takeWhile
      (fun e => decide (e.1 = now)), (fun e : Int × Sess => decide (e.1 = now)) e = true :=
    fun e he => mem_takeWhile_pred (p := fun e : Int × Sess => decide (e.1 = now)) he
  have hCeq : ∀ e ∈ (rest.dropWhile (stampLt now)).takeWhile
      (fun e => decide (e.1 = now)), e.1 = now := by
    intro e he
    simpa using hC2 e he
  have hDhead : ∀ d t, (rest.dropWhile (stampLt now)).dropWhile
      (fun e => decide (e.1 = now)) = d :: t → now < d.1 := by
    intro d t hD
    have h1 : decide (d.1 = now) = false :=
      dropWhile_head_false (p := fun e : Int × Sess => decide (e.1 = now)) hD
    have h2 : d ∈ rest.dropWhile (stampLt now) :=
      mem_of_mem_dropWhile (hD ▸ List.mem_cons_self d t)
    have h3 := hBge d h2
    simp only [decide_eq_false_iff_not] at h1
    omega
  have hsplit : rest
      = rest.takeWhile (stampLt now) ++ rest.dropWhile (stampLt now) :=
    (List.takeWhile_append_dropWhile _ _).symm
  have hsplitB : rest.dropWhile (stampLt now)
      = (rest.dropWhile (stampLt now)).takeWhile (fun e => decide (e.1 = now))
        ++ (rest.dropWhile (stampLt now)).dropWhile (fun e => decide (e.1 = now)) :=
    (List.takeWhile_append_dropWhile _ _).symm
  -- how the re-push lands in the heap
  have hA3 : ∀ e ∈ rest.takeWhile (stampLt now), (!decide (now < e.1)) = true := by
    intro e he
    have := hAlt e he
    simp only [Bool.not_eq_true', decide_eq_false_iff_not]
    omega
  have hC3 : ∀ e ∈ (rest.dropWhile (stampLt now)).takeWhile
      (fun e => decide (e.1 = now)), (!decide (now < e.1)) = true := by
    intro e he
    have := hCeq e he
    simp only [Bool.not_eq_true', decide_eq_false_iff_not]
    omega
  have hDtake3 : ((rest.dropWhile (stampLt now)).dropWhile
      (fun e => decide (e.1 = now))).takeWhile (fun e => !decide (now < e.1)) = [] := by
    cases hD : (rest.dropWhile (stampLt now)).dropWhile
        (fun e => decide (e.1 = now)) with
    | nil => rfl
    | cons d t =>
      have hd := hDhead d t hD
      rw [List.takeWhile_cons, if_neg (by simp [hd])]
  have hDdrop3 : ((rest.dropWhile (stampLt now)).dropWhile
      (fun e => decide (e.1 = now))).dropWhile (fun e => !decide (now < e.1))
      = (rest.dropWhile (stampLt now)).dropWhile (fun e => decide (e.1 = now)) := by
    cases hD : (rest.dropWhile (stampLt now)).dropWhile
        (fun e => decide (e.1 = now)) with
    | nil => rfl
    | cons d t =>
      have hd := hDhead d t hD
      rw [List.dropWhile_cons, if_neg (by simp [hd])]
  have h0 : heapInsert (now, s) rest
      = rest.takeWhile (fun e => !decide (now < e.1))
        ++ (now, s) :: rest.dropWhile (fun e => !decide (now < e.1)) := by
    simpa using heapInsert_eq_take_drop (now, s) rest
  have htake3 : rest.takeWhile (fun e => !decide (now < e.1))
      = rest.takeWhile (stampLt now)
        ++ (rest.dropWhile (stampLt now)).takeWhile (fun e => decide (e.1 = now)) := by
    conv_lhs => rw [hsplit, hsplitB]
    rw [takeWhile_append_of_all hA3, takeWhile_append_of_all hC3, hDtake3,
      List.append_nil]
  have hdrop3 : rest.dropWhile (fun e => !decide (now < e.1))
      = (rest.dropWhile (stampLt now)).dropWhile (fun e => decide (e.1 = now)) := by
    conv_lhs => rw [hsplit, hsplitB]
    rw [dropWhile_append_of_all hA3, dropWhile_append_of_all hC3, hDdrop3]
  have hins2 : heapInsert (now, s) rest
      = (rest.takeWhile (stampLt now)
          ++ (rest.dropWhile (stampLt now)).takeWhile (fun e => decide (e.1 = now)))
        ++ (now, s) :: (rest.dropWhile (stampLt now)).dropWhile
            (fun e => decide (e.1 = now)) := by
    rw [h0, htake3, hdrop3]
  -- the scanned prefix of the new heap is again the low-stamp prefix
  have hCDnil : ((rest.dropWhile (stampLt now)).takeWhile (fun e => decide (e.1 = now))
      ++ (now, s) :: (rest.dropWhile (stampLt now)).dropWhile
          (fun e => decide (e.1 = now))).takeWhile (stampLt now) = [] := by
    cases hC : (rest.dropWhile (stampLt now)).takeWhile (fun e => decide (e.1 = now)) with
    | nil => simp [List.takeWhile_cons, stampLt]
    | cons c t =>
      have hc : c.1 = now := hCeq c (by rw [hC]; exact List.mem_cons_self c t)
      rw [List.cons_append, List.takeWhile_cons, if_neg (by simp [stampLt, hc])]
  have hCDid : ((rest.dropWhile (stampLt now)).takeWhile (fun e => decide (e.1 = now))
      ++ (now, s) :: (rest.dropWhile (stampLt now)).dropWhile
          (fun e => decide (e.1 = now))).dropWhile (stampLt now)
      = (rest.dropWhile (stampLt now)).takeWhile (fun e => decide (e.1 = now))
        ++ (now, s) :: (rest.dropWhile (stampLt now)).dropWhile
            (fun e => decide (e.1 = now)) := by
    cases hC : (rest.dropWhile (stampLt now)).takeWhile (fun e => decide (e.1 = now)) with
    | nil => simp [List.dropWhile_cons, stampLt]
    | cons c t =>
      have hc : c.1 = now := hCeq c (by rw [hC]; exact List.mem_cons_self c t)
      rw [List.cons_append, List.dropWhile_cons, if_neg (by simp [stampLt, hc])]
  have hscanR : (heapInsert (now, s) rest).takeWhile (stampLt now)
      = rest.takeWhile (stampLt now) := by
    rw [hins2, List.append_assoc, takeWhile_append_of_all hA1, hCDnil,
      List.append_nil]
  have hdropR : (heapInsert (now, s) rest).dropWhile (stampLt now)
      = (rest.dropWhile (stampLt now)).takeWhile (fun e => decide (e.1 = now))
        ++ (now, s) :: (rest.dropWhile (stampLt now)).dropWhile
            (fun e => decide (e.1 = now)) := by
    rw [hins2, List.append_assoc, dropWhile_append_of_all hA1, hCDid]
  -- the `= now` split of the new unscanned part
  have htake2 : ((rest.dropWhile (stampLt now)).takeWhile (fun e => decide (e.1 = now))
      ++ (now, s) :: (rest.dropWhile (stampLt now)).dropWhile
          (fun e => decide (e.1 = now))).takeWhile (fun e => decide (e.1 = now))
      = (rest.dropWhile (stampLt now)).takeWhile (fun e => decide (e.1 = now))
        ++ [(now, s)] := by
    rw [takeWhile_append_of_all hC2, List.takeWhile_cons, if_pos (by simp)]
    cases hD : (rest.dropWhile (stampLt now)).dropWhile
        (fun e => decide (e.1 = now)) with
    | nil => rfl
    | cons d t =>
      rw [List.takeWhile_cons, if_neg (by simp [dropWhile_head_false hD])]
  have hdrop2 : ((rest.dropWhile (stampLt now)).takeWhile (fun e => decide (e.1 = now))
      ++ (now, s) :: (rest.dropWhile (stampLt now)).dropWhile
          (fun e => decide (e.1 = now))).dropWhile (fun e => decide (e.1 = now))
      = (rest.dropWhile (stampLt now)).dropWhile (fun e => decide (e.1 = now)) := by
    rw [dropWhile_append_of_all hC2, List.dropWhile_cons, if_pos (by simp)]
    cases hD : (rest.dropWhile (stampLt now)).dropWhile
        (fun e => decide (e.1 = now)) with
    | nil => rfl
    | cons d t =>
      rw [List.dropWhile_cons, if_neg (by simp [dropWhile_head_false hD])]
  -- the restamped pool is well-formed and has fewer low stamps
  have hwf2 : WFPool { p with
      cycles := aset s.session_id now p.cycles,
      pool := heapInsert (now, s) rest } := by
    refine ⟨heapInsert_pairwise hsort_rest, ?_, ?_, ?_, hsk, aset_keys_nodup hck⟩
    · have hperm := (heapInsert_perm (now, s) rest).map (fun e => e.2.session_id)
      rw [hperm.nodup_iff]
      exact List.nodup_cons.mpr ⟨hnodup_head, hnodup_rest⟩
    · intro e he
      rcases List.mem_cons.mp ((heapInsert_perm (now, s) rest).mem_iff.mp he)
        with h2 | h2
      · subst h2
        exact alookup_aset_self _ _ _
      · rw [alookup_aset_ne _ _ (hrest_ne e h2)]
        exact hcyc e (hp ▸ List.mem_cons_of_mem _ h2)
    · intro e he
      rcases List.mem_cons.mp ((heapInsert_perm (now, s) rest).mem_iff.mp he)
        with h2 | h2
      · subst h2
        exact hsess_head
      · exact hsess e (hp ▸ List.mem_cons_of_mem _ h2)
  have hcount2 : (({ p with
      cycles := aset s.session_id now p.cycles,
      pool := heapInsert (now, s) rest }).pool.filter (stampLt now)).length < fuel := by
    show ((heapInsert (now, s) rest).filter (stampLt now)).length < fuel
    rw [((heapInsert_perm (now, s) rest).filter (stampLt now)).length_eq,
      List.filter_cons, if_neg (by simp [stampLt])]
    exact hcount'
  obtain ⟨q, hq, hqpool, hqsess, hqcyc⟩ := ih _ hwf2 hcount2
  have hstep : gcLoop now (fuel + 1) p = some q := by
    rw [← hq]
    simp only [gcLoop, hp, hcyc_head]
    rw [if_neg hge, if_neg hexp]
  -- translating the scan sets between the old and the restamped pool
  have hdeadsP : gcDeadSids now p
      = ((rest.takeWhile (stampLt now)).filter
          (fun e => has_expired e.2 now)).map (fun e => e.2.session_id) := by
    simp [gcDeadSids, gcDead, gcScan, hscan, hexp']
  have hkeepsP : gcKeepSids now p
      = s.session_id :: ((rest.takeWhile (stampLt now)).filter
          (fun e => !has_expired e.2 now)).map (fun e => e.2.session_id) := by
    simp [gcKeepSids, gcKeep, gcScan, hscan, hexp']
  have hR2dead : gcDeadSids now { p with
      cycles := aset s.session_id now p.cycles,
      pool := heapInsert (now, s) rest }
      = ((rest.takeWhile (stampLt now)).filter
          (fun e => has_expired e.2 now)).map (fun e => e.2.session_id) := by
    show (((heapInsert (now, s) rest).takeWhile (stampLt now)).filter
        (fun e => has_expired e.2 now)).map (fun e => e.2.session_id) = _
    rw [hscanR]
  have hR2keep : gcKeepSids now { p with
      cycles := aset s.session_id now p.cycles,
      pool := heapInsert (now, s) rest }
      = ((rest.takeWhile (stampLt now)).filter
          (fun e => !has_expired e.2 now)).map (fun e => e.2.session_id) := by
    show (((heapInsert (now, s) rest).takeWhile (stampLt now)).filter
        (fun e => !has_expired e.2 now)).map (fun e => e.2.session_id) = _
    rw [hscanR]
  have hfh2 : gcFinalHeap now { p with
      cycles := aset s.session_id now p.cycles,
      pool := heapInsert (now, s) rest } = gcFinalHeap now p := by
    show ((heapInsert (now, s) rest).dropWhile (stampLt now)).takeWhile
          (fun e => decide (e.1 = now))
        ++ (((heapInsert (now, s) rest).takeWhile (stampLt now)).filter
            (fun e => !has_expired e.2 now)).map (fun e => (now, e.2))
        ++ ((heapInsert (now, s) rest).dropWhile (stampLt now)).dropWhile
            (fun e => decide (e.1 = now))
      = gcFinalHeap now p
    rw [hscanR, hdropR, htake2, hdrop2]
    rw [gcFinalHeap, gcKeep, gcScan, gcRest, hscan, hdrop,
      List.filter_cons, if_pos (by simp [hexp']), List.map_cons]
    simp [List.append_assoc]
  refine ⟨q, hstep, by rw [hqpool, hfh2], fun sid => ?_, fun sid => ?_⟩
  · have hthis := hqsess sid
    rw [hR2dead] at hthis
    rw [hdeadsP]
    exact hthis
  · have hthis := hqcyc sid
    rw [hR2dead, hR2keep] at hthis
    rw [hdeadsP, hkeepsP]
    by_cases h1 : sid ∈ ((rest.takeWhile (stampLt now)).filter
        (fun e => has_expired e.2 now)).map (fun e => e.2.session_id)
    · rw [if_pos h1] at hthis
      rw [if_pos h1]
      exact hthis
    · rw [if_neg h1] at hthis
      rw [if_neg h1]
      by_cases h2 : sid = s.session_id
      · subst h2
        have hnk : s.session_id ∉ ((rest.takeWhile (stampLt now)).filter
            (fun e => !has_expired e.2 now)).map (fun e => e.2.session_id) :=
          fun hm => hnodup_head (scan_sids_sub hm)
        rw [if_neg hnk] at hthis
        rw [if_pos (List.mem_cons_self _ _)]
        have : alookup s.session_id ({ p with
            cycles := aset s.session_id now p.cycles,
            pool := heapInsert (now, s) rest } : Pool).cycles = some now :=
          alookup_aset_self _ _ _
        rw [hthis]
        exact this
      · by_cases h3 : sid ∈ ((rest.takeWhile (stampLt now)).filter
            (fun e => !has_expired e.2 now)).map (fun e => e.2.session_id)
        · rw [if_pos h3] at hthis
          rw [if_pos (List.mem_cons_of_mem _ h3)]
          exact hthis
        · rw [if_neg h3] at hthis
          rw [if_neg (by simp [List.mem_cons, h2, h3])]
          rw [hthis]
          exact alookup_aset_ne _ _ h2

/-- The characterisation of the `Pool.gc` loop on well-formed pools. -/
theorem gcLoop_char (now : Int) : ∀ fuel : Nat, GcStatement now fuel := by
  intro fuel
  induction fuel with
  | zero => exact fun p _ h => absurd h (Nat.not_lt_zero _)
  | succ fuel ih =>
    intro p hwf hcount
    obtain ⟨hsort, hnodup, hcyc, hsess, hsk, hck⟩ := hwf
    cases hp : p.pool with
    | nil =>
      refine ⟨p, ?_, ?_, fun sid => ?_, fun sid => ?_⟩
      · simp [gcLoop, hp]
      · simp [gcFinalHeap, gcRest, gcKeep, gcScan, hp]
      · simp [gcDeadSids, gcDead, gcScan, hp]
      · simp [gcDeadSids, gcKeepSids, gcDead, gcKeep, gcScan, hp]
    | cons hd rest =>
      obtain ⟨ts, s⟩ := hd
      have hmem : (ts, s) ∈ p.pool := by rw [hp]; exact List.mem_cons_self _ _
      have hcyc_head : alookup s.session_id p.cycles = some ts := hcyc _ hmem
      have hsess_head : alookup s.session_id p.sessions = some s := hsess _ hmem
      have hsort_all : ∀ b ∈ rest, ts ≤ b.1 := by
        have := hsort; rw [hp, List.pairwise_cons] at this
        exact this.1
      have hsort_rest : rest.Pairwise (fun a b => a.1 ≤ b.1) := by
        have := hsort; rw [hp, List.pairwise_cons] at this
        exact this.2
      have hnodup_head : s.session_id ∉ rest.map (fun e => e.2.session_id) := by
        have := hnodup; rw [hp, List.map_cons, List.nodup_cons] at this
        exact this.1
      have hnodup_rest : (rest.map (fun e => e.2.session_id)).Nodup := by
        have := hnodup; rw [hp, List.map_cons, List.nodup_cons] at this
        exact this.2
      have hrest_ne : ∀ e ∈ rest, e.2.session_id ≠ s.session_id := by
        intro e he heq
        exact hnodup_head (heq ▸ List.mem_map_of_mem (fun e => e.2.session_id) he)
      by_cases hge : now ≤ ts
      · -- the head's recorded stamp has reached `now`: the pass stops
        have hstamp : stampLt now (ts, s) = false := by
          simp only [stampLt]
          simp only [decide_eq_false_iff_not]
          omega
        have hscan : p.pool.takeWhile (stampLt now) = [] := by
          rw [hp, List.takeWhile_cons, if_neg (by simp [hstamp])]
        have hdropall : p.pool.dropWhile (stampLt now) = p.pool := by
          rw [hp, List.dropWhile_cons, if_neg (by simp [hstamp])]
        refine ⟨p, ?_, ?_, fun sid => ?_, fun sid => ?_⟩
        · simp [gcLoop, hp, hcyc_head, hge]
        · rw [gcFinalHeap, gcKeep, gcScan, gcRest, hscan, hdropall]
          simp [List.takeWhile_append_dropWhile]
        · simp [gcDeadSids, gcDead, gcScan, hscan]
        · simp [gcDeadSids, gcKeepSids, gcDead, gcKeep, gcScan, hscan]
      · -- the head is scanned
        have hlt : ts < now := by omega
        have hstamp : stampLt now (ts, s) = true := by
          simp only [stampLt]
          simp only [decide_eq_true_eq]
          omega
        have hscan : p.pool.takeWhile (stampLt now)
            = (ts, s) :: rest.takeWhile (stampLt now) := by
          rw [hp, List.takeWhile_cons, if_pos (by simp [hstamp])]
        have hdrop : p.pool.dropWhile (stampLt now)
            = rest.dropWhile (stampLt now) := by
          rw [hp, List.dropWhile_cons, if_pos (by simp [hstamp])]
        have hcount' : (rest.filter (stampLt now)).length < fuel := by
          have : p.pool.filter (stampLt now)
              = (ts, s) :: rest.filter (stampLt now) := by
            rw [hp, List.filter_cons, if_pos (by simp [hstamp])]
          rw [this] at hcount
          simpa using Nat.lt_of_succ_lt_succ hcount
        by_cases hexp : has_expired s now = true
        · -- expired head: removed from the id map and the heap
          have hrm : (Pool.remove { p with pool := rest } s.session_id).1
              = { sessions := aerase s.session_id p.sessions
                  cycles := aerase s.session_id p.cycles
                  pool := rest
                  stopping := p.stopping } := by
            have hnotin : ∀ e ∈ rest, e ≠ (ts, s) := by
              intro e he heq
              exact hrest_ne e he (by rw [heq])
            simp only [Pool.remove, hsess_head, hcyc_head]
            by_cases hts : ts ≠ 0 <;>
              simp [hts, removeFirst_of_forall_ne hnotin]
          have hwf' : WFPool
              { sessions := aerase s.session_id p.sessions
                cycles := aerase s.session_id p.cycles
                pool := rest
                stopping := p.stopping } := by
            refine ⟨hsort_rest, hnodup_rest, ?_, ?_, aerase_keys_nodup hsk,
              aerase_keys_nodup hck⟩
            · intro e he
              rw [alookup_aerase_ne _ (hrest_ne e he)]
              exact hcyc e (hp ▸ List.mem_cons_of_mem _ he)
            · intro e he
              rw [alookup_aerase_ne _ (hrest_ne e he)]
              exact hsess e (hp ▸ List.mem_cons_of_mem _ he)
          obtain ⟨q, hq, hqpool, hqsess, hqcyc⟩ :=
            ih _ hwf' (by simpa using hcount')
          have hstep : gcLoop now (fuel + 1) p = some q := by
            rw [← hq, ← hrm]
            simp only [gcLoop, hp, hcyc_head]
            rw [if_neg hge, if_pos hexp]
          have hdeads : gcDeadSids now p
              = s.session_id
                :: ((rest.takeWhile (stampLt now)).filter
                      (fun e => has_expired e.2 now)).map (fun e => e.2.session_id) := by
            simp [gcDeadSids, gcDead, gcScan, hscan, hexp]
          have hkeeps : gcKeepSids now p
              = ((rest.takeWhile (stampLt now)).filter
                  (fun e => !has_expired e.2 now)).map (fun e => e.2.session_id) := by
            simp [gcKeepSids, gcKeep, gcScan, hscan, hexp]
          have hdeadR : gcDeadSids now
              { sessions := aerase s.session_id p.sessions
                cycles := aerase s.session_id p.cycles
                pool := rest
                stopping := p.stopping }
              = ((rest.takeWhile (stampLt now)).filter
                  (fun e => has_expired e.2 now)).map (fun e => e.2.session_id) := rfl
          have hkeepR : gcKeepSids now
              { sessions := aerase s.session_id p.sessions
                cycles := aerase s.session_id p.cycles
                pool := rest
                stopping := p.stopping }
              = ((rest.takeWhile (stampLt now)).filter
                  (fun e => !has_expired e.2 now)).map (fun e => e.2.session_id) := rfl
          have hfh : gcFinalHeap now
              { sessions := aerase s.session_id p.sessions
                cycles := aerase s.session_id p.cycles
                pool := rest
                stopping := p.stopping } = gcFinalHeap now p := by
            simp [gcFinalHeap, gcKeep, gcScan, gcRest, hscan, hdrop, hexp]
          refine ⟨q, hstep, by rw [hqpool, hfh], fun sid => ?_, fun sid => ?_⟩
          · rw [hqsess sid, hdeadR, hdeads]
            dsimp only
            by_cases h1 : sid ∈ ((rest.takeWhile (stampLt now)).filter
                (fun e => has_expired e.2 now)).map (fun e => e.2.session_id)
            · rw [if_pos h1, if_pos (List.mem_cons_of_mem _ h1)]
            · rw [if_neg h1]
              by_cases h2 : sid = s.session_id
              · subst h2
                rw [if_pos (List.mem_cons_self _ _)]
                exact alookup_aerase_self hsk
              · rw [if_neg (fun hm => (List.mem_cons.mp hm).elim h2 h1),
                  alookup_aerase_ne _ h2]
          · rw [hqcyc sid, hdeadR, hkeepR, hdeads, hkeeps]
            dsimp only
            by_cases h1 : sid ∈ ((rest.takeWhile (stampLt now)).filter
                (fun e => has_expired e.2 now)).map (fun e => e.2.session_id)
            · rw [if_pos h1, if_pos (List.mem_cons_of_mem _ h1)]
            · rw [if_neg h1]
              by_cases h2 : sid = s.session_id
              · subst h2
                rw [if_pos (List.mem_cons_self _ _)]
                have hnk : s.session_id ∉ ((rest.takeWhile (stampLt now)).filter
                    (fun e => !has_expired e.2 now)).map (fun e => e.2.session_id) :=
                  fun hm => hnodup_head (scan_sids_sub hm)
                rw [if_neg hnk]
                exact alookup_aerase_self hck
              · rw [if_neg (fun hm => (List.mem_cons.mp hm).elim h2 h1)]
                by_cases h3 : sid ∈ ((rest.takeWhile (stampLt now)).filter
                    (fun e => !has_expired e.2 now)).map (fun e => e.2.session_id)
                · rw [if_pos h3]
                  exact (if_pos h3).symm
                · rw [if_neg h3, alookup_aerase_ne _ h2]
                  exact (if_neg h3).symm
        · -- live head: restamped with `now` and pushed back
          exact gcLoop_char_keep now fuel ih p hp hcyc hsess hsk hck
            hcyc_head hsess_head hsort_rest hnodup_head hnodup_rest hrest_ne
            hge hstamp hscan hdrop hcount' hexp

/-- C5: a single `Pool.gc` pass at time `now`, on a well-formed pool.  It
scans exactly the heap prefix whose recorded cycle stamps are below `now`,
stopping at the first head already stamped `now` or later; every scanned
session that `has_expired now` (terminal, or nonzero `expires_at ≤ now`)
disappears from both the id map and the heap; every other scanned session
is restamped with cycle `now` and pushed back onto the heap; and
`Pool.remove` on an id absent from the map does nothing and reports
`False`, so no session not present in the map is ever removed. -/
theorem c5_pool_gc (p : Pool) (now : Int) (hwf : WFPool p) (_hn : 0 < now) :
    (∃ q, Pool.gc now p = some q
      ∧ q.pool = gcFinalHeap now p
      ∧ (∀ sid, alookup sid q.sessions =
          if sid ∈ gcDeadSids now p then none else alookup sid p.sessions)
      ∧ (∀ sid, alookup sid q.cycles =
          if sid ∈ gcDeadSids now p then none
          else if sid ∈ gcKeepSids now p then some now
          else alookup sid p.cycles)
      ∧ (∀ e ∈ gcDead now p, (alookup e.2.session_id p.sessions).isSome = true))
    ∧ (∀ (r : Pool) (sid : String), alookup sid r.sessions = none →
        Pool.remove r sid = (r, false)) := by
  constructor
  · have hdeadok : ∀ e ∈ gcDead now p,
        (alookup e.2.session_id p.sessions).isSome = true := by
      intro e he
      have hm : e ∈ p.pool := mem_of_mem_takeWhile (List.mem_filter.mp he).1
      rw [hwf.2.2.2.1 e hm]
      rfl
    by_cases hnil : p.pool = []
    · refine ⟨p, by simp [Pool.gc, hnil], ?_, fun sid => ?_, fun sid => ?_, hdeadok⟩
      · simp [gcFinalHeap, gcRest, gcKeep, gcScan, hnil]
      · simp [gcDeadSids, gcDead, gcScan, hnil]
      · simp [gcDeadSids, gcKeepSids, gcDead, gcKeep, gcScan, hnil]
    · obtain ⟨q, hq, h2, h3, h4⟩ :=
        gcLoop_char now (p.pool.length + 1) p hwf
          (Nat.lt_succ_of_le (List.length_filter_le _ _))
      refine ⟨q, ?_, h2, h3, h4, hdeadok⟩
      rw [Pool.gc, if_neg hnil]
      exact hq
  · intro r sid hnone
    simp [Pool.remove, hnone]

/-- C5 witness: the theorem applied to a two-session pool at time 10 — the
closed session under id `"a"` (stamp 1) is collected, the live session
under `"b"` (stamp 5) is restamped to 10 and kept. -/
theorem c5_pool_gc_witness :
    WFPool gcExampleP ∧ (0 : Int) < 10
      ∧ Pool.gc 10 gcExampleP = some gcExampleQ
      ∧ gcExampleQ.pool = gcFinalHeap 10 gcExampleP
      ∧ alookup "a" gcExampleQ.sessions = none
      ∧ alookup "b" gcExampleQ.cycles = some 10 := by
  obtain ⟨⟨q, hq, hpool, hsess, hcyc, _⟩, _⟩ :=
    c5_pool_gc gcExampleP 10 (by unfold WFPool; decide) (by decide)
  have hq' : Pool.gc 10 gcExampleP = some gcExampleQ := by decide
  have hqe : q = gcExampleQ := Option.some.inj (hq.symm.trans hq')
  subst hqe
  refine ⟨by unfold WFPool; decide, by decide, hq', hpool, ?_, ?_⟩
  · have h := hsess "a"
    rw [if_pos (by decide)] at h
    exact h
  · have h := hcyc "b"
    rw [if_neg (by decide), if_pos (by decide)] at h
    exact h

end SockJS
